import Mathlib

/-!
Verification of the GOC (Gene Order Conservation) computation of `goc.py`.

The script walks every ordered pair of species; per pair it
* builds `ort`, a dict from reference CDS id to its target ortholog id
  (last row wins, lines 85-88),
* forms `list_tar_ort`, the ortholog-target sequence over the reference's
  ordered CDS list with sentinel `"NA"` (line 97),
* slides a window of `window_length = ceil(n/100)*3` over it
  (lines 93-98), scoring each window with the adjacency loop
  (lines 102-127), and
* emits one `(position, score)` row per window, `position` being the index
  in the full reference gene list of the CDS at offset
  `ceil(window_length/2) + window_offset` (lines 128-132).

Fallible operations (Python `list.index` raising `ValueError`, indexing
raising `IndexError`) are modelled with `Option`; a `none` result is the
pair's computation dying on an uncaught exception.  Machine reals appear
only as the final score `count / len(window)`, an exact rational here.
-/

namespace Goc

/-- Python `list.index` as a fallible first-occurrence lookup: `.index`
raises `ValueError` when the element is absent, modelled as `none`. -/
def list_index : List String → String → Option Nat
  | [], _ => none
  | x :: xs, v => if x = v then some 0 else (list_index xs v).map (fun i => i + 1)

/-- Line 94: `window_length = math.ceil(limit / 100.0) * window_proportion`
with `window_proportion = 3` (line 34); the float ceiling is modelled as the
exact ceiling division `(limit + 99) / 100`. -/
def window_length (limit : Nat) : Nat := ((limit + 99) / 100) * 3

/-- Line 95: initial `loc_start_window = math.ceil(window_length / 2.0)`,
again with the float ceiling taken exactly. -/
def loc_start_window0 (wl : Nat) : Nat := (wl + 1) / 2

/-- One assignment `ort[i[0]] = i[-1]` of the dict-building loop (line 88). -/
def ort_insert (d : String → Option String) (row : String × String) :
    String → Option String :=
  fun x => if x = row.1 then some row.2 else d x

/-- Lines 85-88: the `ort` dict built from the ortholog query rows in order;
a later row with the same source gene overwrites an earlier one. -/
def ort (rows : List (String × String)) : String → Option String :=
  rows.foldl ort_insert (fun _ => none)

/-- Line 97: `list_tar_ort = [ort[x] if x in ort else "NA" for x in list_cds_ref]`. -/
def list_tar_ort (list_cds_ref : List String) (d : String → Option String) :
    List String :=
  list_cds_ref.map (fun x => (d x).getD "NA")

/-- The scoring loop over one window (lines 102-127).  The loop is phrased
structurally on the remaining window suffix `rest`; `index_ref` is the
position of `rest`'s head inside the window, `window[index_ref + 1]` is the
head of `rest`'s tail, and `index_ref < limit_computation` is `rest`'s tail
being nonempty.  `new_synt_region` and `count` carry the loop state
(`new_synt_region`, `number_cds_in_synt_region`); the result is the final
count, or `none` when `list_cds_tar.index(window[index_ref])` raises. -/
def number_cds_in_synt_region (list_cds_tar : List String) :
    Nat → Bool → Nat → List String → Option Nat
  | _, _, count, [] => some count
  | index_ref, new_synt_region, count, cds_tar :: rest =>
    if cds_tar = "NA" then
      -- line 127: a sentinel marks a new region and is not counted
      number_cds_in_synt_region list_cds_tar (index_ref + 1) true count rest
    else
      match rest with
      | [] =>
        -- line 106 fails at the window's last position: nothing happens
        some count
      | next :: _ =>
        match list_index list_cds_tar cds_tar with
        | none => none -- line 107: `.index` raises ValueError
        | some index_tar =>
          if index_tar ≠ list_cds_tar.length - 1 ∧
              list_cds_tar.getD (index_tar + 1) "" = next then
            -- lines 108-116: forward adjacency; an extra anchor point when a
            -- new syntenic region starts
            number_cds_in_synt_region list_cds_tar (index_ref + 1) false
              (count + if new_synt_region then 2 else 1) rest
          else if 0 < index_ref ∧ index_tar ≠ 0 then
            if list_cds_tar.getD (index_tar - 1) "" = next then
              -- lines 117-122: backward adjacency, same accounting
              number_cds_in_synt_region list_cds_tar (index_ref + 1) false
                (count + if new_synt_region then 2 else 1) rest
            else
              -- lines 123-125: broken region
              number_cds_in_synt_region list_cds_tar (index_ref + 1) true count rest
          else
            -- fall-through: forward failed and the `elif` guard of line 117
            -- is false; the loop body ends leaving both state variables as
            -- they are
            number_cds_in_synt_region list_cds_tar (index_ref + 1)
              new_synt_region count rest

/-- One iteration of the while loop (lines 99-132): slice the window, run the
scoring loop, then map the CDS at `loc` back to its index in the full gene
list.  Failures of `list.index` / list indexing surface as `none`. -/
def goc_window (lto list_cds_ref list_gene_ref list_cds_tar : List String)
    (wl start_window loc : Nat) : Option (Nat × ℚ) :=
  match number_cds_in_synt_region list_cds_tar 0 true 0
      ((lto.drop start_window).take wl) with
  | none => none
  | some count =>
    match list_cds_ref.get? loc with
    | none => none -- line 130: `list_cds_ref[loc_start_window]` IndexError
    | some pid =>
      match list_index list_gene_ref pid with
      | none => none -- line 130: `list_gene_ref.index` ValueError
      | some goc_loc =>
        some (goc_loc,
          (count : ℚ) / ((((lto.drop start_window).take wl).length : ℚ)))

/-- The while loop of lines 98-132.  `start_window` and `loc` advance in
lock-step; the loop runs while `start_window < limit - window_length`, i.e.
exactly `max (limit - window_length) 0` times, carried here as `fuel`. -/
def goc_scan_loop (lto list_cds_ref list_gene_ref list_cds_tar : List String)
    (wl : Nat) : Nat → Nat → Nat → Option (List (Nat × ℚ))
  | _, _, 0 => some []
  | start_window, loc, fuel + 1 =>
    match goc_window lto list_cds_ref list_gene_ref list_cds_tar wl start_window loc with
    | none => none
    | some row =>
      match goc_scan_loop lto list_cds_ref list_gene_ref list_cds_tar wl
          (start_window + 1) (loc + 1) fuel with
      | none => none
      | some rest => some (row :: rest)

/-- GOC scoring of one ordered (reference, target) pair (lines 90-136),
taking the three ordered id sequences the SQL queries of lines 44-75 return
and the ortholog lookup.  The result is the list of `(pos, score)` rows
inserted for this pair, or `none` when the pair's computation dies. -/
def goc_scan (list_cds_ref list_gene_ref list_cds_tar : List String)
    (d : String → Option String) : Option (List (Nat × ℚ)) :=
  goc_scan_loop (list_tar_ort list_cds_ref d) list_cds_ref list_gene_ref
    list_cds_tar (window_length list_cds_ref.length) 0
    (loc_start_window0 (window_length list_cds_ref.length))
    (list_cds_ref.length - window_length list_cds_ref.length)

/-- One pair end to end: dict building (lines 85-88) then scoring. -/
def goc_pair (list_cds_ref list_gene_ref list_cds_tar : List String)
    (rows : List (String × String)) : Option (List (Nat × ℚ)) :=
  goc_scan list_cds_ref list_gene_ref list_cds_tar (ort rows)

/-- The spec's running example: a reference protein-coding list of ten genes. -/
def demo10 : List String :=
  ["g1", "g2", "g3", "g4", "g5", "g6", "g7", "g8", "g9", "g10"]

/-- Identity ortholog rows for `demo10`: every gene its own ortholog. -/
def demo_rows : List (String × String) := demo10.map (fun g => (g, g))

/-! ### Helper lemmas about `list_index` -/

theorem list_index_nil (v : String) : list_index [] v = none := rfl

theorem list_index_cons (x : String) (xs : List String) (v : String) :
    list_index (x :: xs) v =
      if x = v then some 0 else (list_index xs v).map (fun i => i + 1) := rfl

theorem list_index_lt_length {l : List String} {v : String} {i : Nat}
    (h : list_index l v = some i) : i < l.length := by
  induction l generalizing i with
  | nil => simp [list_index_nil] at h
  | cons x xs ih =>
    by_cases hx : x = v
    · simp only [list_index_cons, if_pos hx] at h
      cases h
      simp
    · simp only [list_index_cons, if_neg hx, Option.map_eq_some'] at h
      obtain ⟨j, hj, rfl⟩ := h
      have := ih hj
      simp only [List.length_cons]
      omega

theorem list_index_eq_none {l : List String} {v : String} (h : v ∉ l) :
    list_index l v = none := by
  induction l with
  | nil => rfl
  | cons x xs ih =>
    simp only [List.mem_cons, not_or] at h
    simp [list_index_cons, Ne.symm h.1, ih h.2]

theorem list_index_isSome_of_mem {l : List String} {v : String} (h : v ∈ l) :
    ∃ i, list_index l v = some i := by
  induction l with
  | nil => simp at h
  | cons x xs ih =>
    by_cases hx : x = v
    · exact ⟨0, by simp [list_index_cons, hx]⟩
    · rcases List.mem_cons.mp h with h1 | h1
      · exact absurd h1.symm hx
      · obtain ⟨i, hi⟩ := ih h1
        exact ⟨i + 1, by simp [list_index_cons, hx, hi]⟩

theorem list_index_getElem {l : List String} (hn : l.Nodup) {i : Nat}
    (h : i < l.length) : list_index l l[i] = some i := by
  induction l generalizing i with
  | nil => simp at h
  | cons x xs ih =>
    cases i with
    | zero => simp [list_index_cons]
    | succ j =>
      have hnx := List.nodup_cons.mp hn
      have hj : j < xs.length := by simpa using h
      have hx : x ≠ xs[j] :=
        fun he => hnx.1 (he ▸ List.getElem_mem hj)
      have hih : list_index xs xs[j] = some j := ih hnx.2 hj
      simp only [List.getElem_cons_succ, list_index_cons, if_neg hx, hih,
        Option.map_some']

theorem list_index_strict_mono {l s : List String} (hn : l.Nodup)
    (hs : s.Sublist l) {a b pa pb : Nat} (hab : a < b)
    (ha : a < s.length) (hb : b < s.length)
    (hpa : list_index l s[a] = some pa) (hpb : list_index l s[b] = some pb) :
    pa < pb := by
  have hp : l.Pairwise
      (fun u v => ∀ pu pv, list_index l u = some pu →
        list_index l v = some pv → pu < pv) := by
    rw [List.pairwise_iff_getElem]
    intro i j hi hj hij pu pv hpu hpv
    rw [list_index_getElem hn hi] at hpu
    rw [list_index_getElem hn hj] at hpv
    cases hpu
    cases hpv
    exact hij
  have hps := hp.sublist hs
  rw [List.pairwise_iff_getElem] at hps
  exact hps a b ha hb hab pa pb hpa hpb

/-! ### Unfolding equations for the scoring loop -/

theorem number_cds_nil (T : List String) (i : Nat) (new : Bool) (count : Nat) :
    number_cds_in_synt_region T i new count [] = some count := rfl

theorem number_cds_cons (T : List String) (i : Nat) (new : Bool) (count : Nat)
    (x : String) (rest : List String) :
    number_cds_in_synt_region T i new count (x :: rest) =
      if x = "NA" then number_cds_in_synt_region T (i + 1) true count rest
      else
        match rest with
        | [] => some count
        | next :: _ =>
          match list_index T x with
          | none => none
          | some it =>
            if it ≠ T.length - 1 ∧ T.getD (it + 1) "" = next then
              number_cds_in_synt_region T (i + 1) false
                (count + if new then 2 else 1) rest
            else if 0 < i ∧ it ≠ 0 then
              if T.getD (it - 1) "" = next then
                number_cds_in_synt_region T (i + 1) false
                  (count + if new then 2 else 1) rest
              else number_cds_in_synt_region T (i + 1) true count rest
            else number_cds_in_synt_region T (i + 1) new count rest := rfl

theorem number_cds_singleton (T : List String) (i : Nat) (new : Bool)
    (count : Nat) (x : String) :
    number_cds_in_synt_region T i new count [x] = some count := by
  by_cases hx : x = "NA"
  · rw [number_cds_cons, if_pos hx]
    rfl
  · rw [number_cds_cons, if_neg hx]

/-! ### Bounds and special runs of the scoring loop -/

theorem number_cds_le {T : List String} :
    ∀ (rest : List String) (i : Nat) (new : Bool) (count c : Nat),
      number_cds_in_synt_region T i new count rest = some c →
      c ≤ count + (rest.length - 1) + (if new then 1 else 0) ∧
        (rest = [] → c = count) := by
  intro rest
  induction rest with
  | nil =>
    intro i new count c h
    rw [number_cds_nil] at h
    cases h
    exact ⟨by cases new <;> simp, fun _ => rfl⟩
  | cons x rest ih =>
    intro i new count c h
    refine ⟨?_, fun he => nomatch he⟩
    cases rest with
    | nil =>
      rw [number_cds_singleton] at h
      cases h
      cases new <;> simp
    | cons next t =>
      rw [number_cds_cons] at h
      by_cases hx : x = "NA"
      · rw [if_pos hx] at h
        have hb := (ih _ _ _ _ h).1
        cases new <;> simp at hb ⊢ <;> omega
      · rw [if_neg hx] at h
        cases hl : list_index T x with
        | none =>
          simp only [hl] at h
          exact Option.noConfusion h
        | some it =>
          simp only [hl] at h
          by_cases hf : it ≠ T.length - 1 ∧ T.getD (it + 1) "" = next
          · rw [if_pos hf] at h
            have hb := (ih _ _ _ _ h).1
            cases new <;> simp at hb ⊢ <;> omega
          · rw [if_neg hf] at h
            by_cases hg : 0 < i ∧ it ≠ 0
            · rw [if_pos hg] at h
              by_cases hbk : T.getD (it - 1) "" = next
              · rw [if_pos hbk] at h
                have hb := (ih _ _ _ _ h).1
                cases new <;> simp at hb ⊢ <;> omega
              · rw [if_neg hbk] at h
                have hb := (ih _ _ _ _ h).1
                cases new <;> simp at hb ⊢ <;> omega
            · rw [if_neg hg] at h
              have hb := (ih _ _ _ _ h).1
              cases new <;> simp at hb ⊢ <;> omega

theorem number_cds_all_na {T : List String} :
    ∀ (rest : List String) (i : Nat) (new : Bool) (count : Nat),
      (∀ v ∈ rest, v = "NA") →
      number_cds_in_synt_region T i new count rest = some count := by
  intro rest
  induction rest with
  | nil => intro i new count _; rfl
  | cons x t ih =>
    intro i new count hall
    have hx : x = "NA" := hall x (by simp)
    rw [number_cds_cons, if_pos hx]
    exact ih _ _ _ (fun v hv => hall v (by simp [hv]))

theorem number_cds_lookup_fail {T : List String} :
    ∀ (rest : List String) (i : Nat) (new : Bool) (count p : Nat),
      p + 1 < rest.length → rest.getD p "" ≠ "NA" → rest.getD p "" ∉ T →
      number_cds_in_synt_region T i new count rest = none := by
  intro rest
  induction rest with
  | nil => intro i new count p hp _ _; simp at hp
  | cons x t ih =>
    intro i new count p hp hna hmem
    cases p with
    | zero =>
      simp only [List.getD_cons_zero] at hna hmem
      cases t with
      | nil => simp at hp
      | cons next t2 =>
        rw [number_cds_cons, if_neg hna, list_index_eq_none hmem]
    | succ q =>
      have hp2 : q + 1 < t.length := by
        simp only [List.length_cons] at hp
        omega
      simp only [List.getD_cons_succ] at hna hmem
      rw [number_cds_cons]
      by_cases hx : x = "NA"
      · rw [if_pos hx]
        exact ih _ _ _ q hp2 hna hmem
      · rw [if_neg hx]
        cases t with
        | nil => simp at hp2
        | cons next t2 =>
          cases hl : list_index T x with
          | none => rfl
          | some it =>
            dsimp only
            by_cases hf : it ≠ T.length - 1 ∧ T.getD (it + 1) "" = next
            · rw [if_pos hf]
              exact ih _ _ _ q hp2 hna hmem
            · rw [if_neg hf]
              by_cases hg : 0 < i ∧ it ≠ 0
              · rw [if_pos hg]
                by_cases hbk : T.getD (it - 1) "" = next
                · rw [if_pos hbk]
                  exact ih _ _ _ q hp2 hna hmem
                · rw [if_neg hbk]
                  exact ih _ _ _ q hp2 hna hmem
              · rw [if_neg hg]
                exact ih _ _ _ q hp2 hna hmem

theorem number_cds_lookup_ok {T : List String} :
    ∀ (rest : List String) (i : Nat) (new : Bool) (count : Nat),
      (∀ v ∈ rest, v ≠ "NA" → v ∈ T) →
      ∃ c, number_cds_in_synt_region T i new count rest = some c := by
  intro rest
  induction rest with
  | nil => intro i new count _; exact ⟨count, rfl⟩
  | cons x t ih =>
    intro i new count hall
    have htail : ∀ v ∈ t, v ≠ "NA" → v ∈ T :=
      fun v hv => hall v (List.mem_cons_of_mem _ hv)
    rw [number_cds_cons]
    by_cases hx : x = "NA"
    · rw [if_pos hx]
      exact ih _ _ _ htail
    · rw [if_neg hx]
      cases t with
      | nil => exact ⟨count, rfl⟩
      | cons next t2 =>
        obtain ⟨it, hit⟩ := list_index_isSome_of_mem (hall x (by simp) hx)
        rw [hit]
        dsimp only
        by_cases hf : it ≠ T.length - 1 ∧ T.getD (it + 1) "" = next
        · rw [if_pos hf]
          exact ih _ _ _ htail
        · rw [if_neg hf]
          by_cases hg : 0 < i ∧ it ≠ 0
          · rw [if_pos hg]
            by_cases hbk : T.getD (it - 1) "" = next
            · rw [if_pos hbk]
              exact ih _ _ _ htail
            · rw [if_neg hbk]
              exact ih _ _ _ htail
          · rw [if_neg hg]
            exact ih _ _ _ htail

/-! ### Colinear windows: forward-identical and reversed targets -/

theorem slice_cons {T : List String} {s : Nat} (r : Nat) (hs : s < T.length) :
    (T.drop s).take (r + 1) = T[s] :: ((T.drop (s + 1)).take r) := by
  rw [List.drop_eq_getElem_cons hs, List.take_succ_cons]

theorem rev_slice_cons {T : List String} {s : Nat} (r : Nat) (hs : s < T.length) :
    (T.reverse.drop s).take (r + 1) =
      T[T.length - 1 - s] :: ((T.reverse.drop (s + 1)).take r) := by
  have hs2 : s < T.reverse.length := by simpa using hs
  rw [List.drop_eq_getElem_cons hs2, List.take_succ_cons, List.getElem_reverse]

theorem number_cds_colinear_aux {T : List String} (hn : T.Nodup)
    (hna : "NA" ∉ T) :
    ∀ (r s i count : Nat), s + r ≤ T.length →
      number_cds_in_synt_region T i false count ((T.drop s).take r) =
        some (count + (r - 1)) := by
  intro r
  induction r with
  | zero =>
    intro s i count _
    simp [number_cds_nil]
  | succ r2 ih =>
    intro s i count hsr
    have hs : s < T.length := by omega
    rw [slice_cons r2 hs]
    have hxna : T[s] ≠ "NA" := fun he => hna (he ▸ List.getElem_mem hs)
    cases r2 with
    | zero =>
      simp only [List.take_zero]
      rw [number_cds_singleton]
      simp
    | succ r3 =>
      have hs1 : s + 1 < T.length := by omega
      rw [slice_cons r3 hs1]
      rw [number_cds_cons, if_neg hxna]
      dsimp only
      rw [list_index_getElem hn hs]
      dsimp only
      have hcond : s ≠ T.length - 1 ∧ T.getD (s + 1) "" = T[s + 1] :=
        ⟨by omega, List.getD_eq_getElem T "" hs1⟩
      rw [if_pos hcond]
      have e : (count + if false then 2 else 1) = count + 1 := rfl
      rw [e, ← slice_cons r3 hs1,
        ih (s + 1) (i + 1) (count + 1) (by omega)]
      congr 1
      omega

theorem number_cds_colinear {T : List String} (hn : T.Nodup) (hna : "NA" ∉ T)
    {r s : Nat} (i count : Nat) (hr : 2 ≤ r) (hsr : s + r ≤ T.length) :
    number_cds_in_synt_region T i true count ((T.drop s).take r) =
      some (count + r) := by
  obtain ⟨r3, rfl⟩ : ∃ r3, r = r3 + 2 := ⟨r - 2, by omega⟩
  have hs : s < T.length := by omega
  have hs1 : s + 1 < T.length := by omega
  have hxna : T[s] ≠ "NA" := fun he => hna (he ▸ List.getElem_mem hs)
  rw [slice_cons (r3 + 1) hs, slice_cons r3 hs1, number_cds_cons, if_neg hxna]
  dsimp only
  rw [list_index_getElem hn hs]
  dsimp only
  have hcond : s ≠ T.length - 1 ∧ T.getD (s + 1) "" = T[s + 1] :=
    ⟨by omega, List.getD_eq_getElem T "" hs1⟩
  rw [if_pos hcond]
  have e : (count + if true then 2 else 1) = count + 2 := rfl
  rw [e, ← slice_cons r3 hs1,
    number_cds_colinear_aux hn hna (r3 + 1) (s + 1) (i + 1) (count + 2) (by omega)]
  congr 1
  omega

theorem number_cds_rev_aux {T : List String} (hn : T.Nodup) (hna : "NA" ∉ T) :
    ∀ (r s i count : Nat), 1 ≤ i → 1 ≤ s → s + r + 1 ≤ T.length →
      number_cds_in_synt_region T i false count ((T.reverse.drop s).take r) =
        some (count + (r - 1)) := by
  intro r
  induction r with
  | zero =>
    intro s i count _ _ _
    simp [number_cds_nil]
  | succ r2 ih =>
    intro s i count hi hs1 hsr
    have hsT : s < T.length := by omega
    rw [rev_slice_cons r2 hsT]
    have hu : T.length - 1 - s < T.length := by omega
    have hxna : T[T.length - 1 - s] ≠ "NA" :=
      fun he => hna (he ▸ List.getElem_mem hu)
    cases r2 with
    | zero =>
      simp only [List.take_zero]
      rw [number_cds_singleton]
      simp
    | succ r3 =>
      have hs1T : s + 1 < T.length := by omega
      rw [rev_slice_cons r3 hs1T]
      rw [number_cds_cons, if_neg hxna]
      dsimp only
      rw [list_index_getElem hn hu]
      dsimp only
      have hfwd : ¬(T.length - 1 - s ≠ T.length - 1 ∧
          T.getD (T.length - 1 - s + 1) "" = T[T.length - 1 - (s + 1)]) := by
        rintro ⟨_, h2⟩
        have ha : T.length - 1 - s + 1 < T.length := by omega
        rw [List.getD_eq_getElem T "" ha] at h2
        have := (List.Nodup.getElem_inj_iff hn).mp h2
        omega
      rw [if_neg hfwd]
      have hbg : 0 < i ∧ T.length - 1 - s ≠ 0 := ⟨by omega, by omega⟩
      rw [if_pos hbg]
      have hbk : T.getD (T.length - 1 - s - 1) "" = T[T.length - 1 - (s + 1)] := by
        rw [show T.length - 1 - s - 1 = T.length - 1 - (s + 1) by omega]
        exact List.getD_eq_getElem T "" (by omega)
      rw [if_pos hbk]
      have e : (count + if false then 2 else 1) = count + 1 := rfl
      rw [e, ← rev_slice_cons r3 hs1T,
        ih (s + 1) (i + 1) (count + 1) (by omega) (by omega) (by omega)]
      congr 1
      omega

theorem number_cds_rev_run {T : List String} (hn : T.Nodup) (hna : "NA" ∉ T)
    {r s : Nat} (i count : Nat) (hi : 1 ≤ i) (hs1 : 1 ≤ s) (hr : 2 ≤ r)
    (hsr : s + r + 1 ≤ T.length) :
    number_cds_in_synt_region T i true count ((T.reverse.drop s).take r) =
      some (count + r) := by
  obtain ⟨r3, rfl⟩ : ∃ r3, r = r3 + 2 := ⟨r - 2, by omega⟩
  have hsT : s < T.length := by omega
  have hs1T : s + 1 < T.length := by omega
  have hu : T.length - 1 - s < T.length := by omega
  have hxna : T[T.length - 1 - s] ≠ "NA" :=
    fun he => hna (he ▸ List.getElem_mem hu)
  rw [rev_slice_cons (r3 + 1) hsT, rev_slice_cons r3 hs1T, number_cds_cons,
    if_neg hxna]
  dsimp only
  rw [list_index_getElem hn hu]
  dsimp only
  have hfwd : ¬(T.length - 1 - s ≠ T.length - 1 ∧
      T.getD (T.length - 1 - s + 1) "" = T[T.length - 1 - (s + 1)]) := by
    rintro ⟨_, h2⟩
    have ha : T.length - 1 - s + 1 < T.length := by omega
    rw [List.getD_eq_getElem T "" ha] at h2
    have := (List.Nodup.getElem_inj_iff hn).mp h2
    omega
  rw [if_neg hfwd]
  have hbg : 0 < i ∧ T.length - 1 - s ≠ 0 := ⟨by omega, by omega⟩
  rw [if_pos hbg]
  have hbk : T.getD (T.length - 1 - s - 1) "" = T[T.length - 1 - (s + 1)] := by
    rw [show T.length - 1 - s - 1 = T.length - 1 - (s + 1) by omega]
    exact List.getD_eq_getElem T "" (by omega)
  rw [if_pos hbk]
  have e : (count + if true then 2 else 1) = count + 2 := rfl
  rw [e, ← rev_slice_cons r3 hs1T,
    number_cds_rev_aux hn hna (r3 + 1) (s + 1) (i + 1) (count + 2)
      (by omega) (by omega) (by omega)]
  congr 1
  omega

theorem number_cds_rev_window {T : List String} (hn : T.Nodup) (hna : "NA" ∉ T)
    {wl s : Nat} (hwl : 3 ≤ wl) (hsw : s + wl + 1 ≤ T.length) :
    number_cds_in_synt_region T 0 true 0 ((T.reverse.drop s).take wl) =
      some (wl - 1) := by
  obtain ⟨r3, rfl⟩ : ∃ r3, wl = r3 + 3 := ⟨wl - 3, by omega⟩
  have hsT : s < T.length := by omega
  have hs1T : s + 1 < T.length := by omega
  have hu : T.length - 1 - s < T.length := by omega
  have hxna : T[T.length - 1 - s] ≠ "NA" :=
    fun he => hna (he ▸ List.getElem_mem hu)
  rw [rev_slice_cons (r3 + 2) hsT, rev_slice_cons (r3 + 1) hs1T,
    number_cds_cons, if_neg hxna]
  dsimp only
  rw [list_index_getElem hn hu]
  dsimp only
  have hfwd : ¬(T.length - 1 - s ≠ T.length - 1 ∧
      T.getD (T.length - 1 - s + 1) "" = T[T.length - 1 - (s + 1)]) := by
    rintro ⟨h1, h2⟩
    by_cases hs0 : s = 0
    · subst hs0
      omega
    · have ha : T.length - 1 - s + 1 < T.length := by omega
      rw [List.getD_eq_getElem T "" ha] at h2
      have := (List.Nodup.getElem_inj_iff hn).mp h2
      omega
  rw [if_neg hfwd]
  have hbg : ¬(0 < 0 ∧ T.length - 1 - s ≠ 0) := by
    rintro ⟨h1, _⟩
    omega
  rw [if_neg hbg, ← rev_slice_cons (r3 + 1) hs1T,
    number_cds_rev_run hn hna 1 0 (by omega) (by omega) (by omega) (by omega)]
  congr 1
  omega

/-! ### Helper lemmas about the scan loop -/

theorem goc_scan_loop_length {lto cref gref ctar : List String} {wl : Nat} :
    ∀ {fuel s loc : Nat} {recs : List (Nat × ℚ)},
      goc_scan_loop lto cref gref ctar wl s loc fuel = some recs →
      recs.length = fuel := by
  intro fuel
  induction fuel with
  | zero =>
    intro s loc recs h
    simp only [goc_scan_loop] at h
    cases h
    rfl
  | succ n ih =>
    intro s loc recs h
    simp only [goc_scan_loop] at h
    cases hw : goc_window lto cref gref ctar wl s loc with
    | none => rw [hw] at h; cases h
    | some row =>
      rw [hw] at h
      cases hr : goc_scan_loop lto cref gref ctar wl (s + 1) (loc + 1) n with
      | none => rw [hr] at h; cases h
      | some rest =>
        rw [hr] at h
        cases h
        simp [ih hr]

theorem goc_scan_loop_getElem {lto cref gref ctar : List String} {wl : Nat} :
    ∀ {fuel s loc : Nat} {recs : List (Nat × ℚ)},
      goc_scan_loop lto cref gref ctar wl s loc fuel = some recs →
      ∀ k, k < fuel →
        goc_window lto cref gref ctar wl (s + k) (loc + k) =
          some (recs.getD k (0, 0)) := by
  intro fuel
  induction fuel with
  | zero => intro s loc recs _ k hk; omega
  | succ n ih =>
    intro s loc recs h k hk
    simp only [goc_scan_loop] at h
    cases hw : goc_window lto cref gref ctar wl s loc with
    | none => rw [hw] at h; cases h
    | some row =>
      rw [hw] at h
      cases hr : goc_scan_loop lto cref gref ctar wl (s + 1) (loc + 1) n with
      | none => rw [hr] at h; cases h
      | some rest =>
        rw [hr] at h
        cases h
        cases k with
        | zero => simpa using hw
        | succ m =>
          have hx := ih hr m (by omega)
          rw [show s + (m + 1) = s + 1 + m by omega,
            show loc + (m + 1) = loc + 1 + m by omega, List.getD_cons_succ]
          exact hx

theorem goc_scan_loop_mem {lto cref gref ctar : List String}
    {wl fuel s loc : Nat} {recs : List (Nat × ℚ)} {r : Nat × ℚ}
    (h : goc_scan_loop lto cref gref ctar wl s loc fuel = some recs)
    (hr : r ∈ recs) :
    ∃ k, k < fuel ∧
      goc_window lto cref gref ctar wl (s + k) (loc + k) = some r := by
  obtain ⟨k, hk, hke⟩ := List.mem_iff_getElem.mp hr
  have hlen := goc_scan_loop_length h
  refine ⟨k, by omega, ?_⟩
  have hg := goc_scan_loop_getElem h k (by omega)
  rwa [List.getD_eq_getElem _ _ hk, hke] at hg

theorem goc_window_inv {lto cref gref ctar : List String} {wl s loc : Nat}
    {r : Nat × ℚ} (h : goc_window lto cref gref ctar wl s loc = some r) :
    ∃ count pid,
      number_cds_in_synt_region ctar 0 true 0 ((lto.drop s).take wl) = some count ∧
      cref.get? loc = some pid ∧
      list_index gref pid = some r.1 ∧
      r.2 = (count : ℚ) / (((lto.drop s).take wl).length : ℚ) := by
  unfold goc_window at h
  cases hc : number_cds_in_synt_region ctar 0 true 0 ((lto.drop s).take wl) with
  | none =>
    simp only [hc] at h
    exact Option.noConfusion h
  | some count =>
    simp only [hc] at h
    cases hp : cref.get? loc with
    | none =>
      simp only [hp] at h
      exact Option.noConfusion h
    | some pid =>
      simp only [hp] at h
      cases hg : list_index gref pid with
      | none =>
        simp only [hg] at h
        exact Option.noConfusion h
      | some gl =>
        simp only [hg, Option.some.injEq] at h
        cases h
        exact ⟨count, pid, rfl, rfl, hg, rfl⟩

/-! ### Remaining small helpers -/

theorem window_length_ge_three {n : Nat} (h : 1 ≤ n) : 3 ≤ window_length n := by
  unfold window_length
  omega

theorem list_tar_ort_length (cref : List String) (d : String → Option String) :
    (list_tar_ort cref d).length = cref.length := by
  simp [list_tar_ort]

theorem ort_eq_getLast_filter (rows : List (String × String)) (x : String) :
    ort rows x =
      ((rows.filter (fun r => r.1 == x)).getLast?).map (fun r => r.2) := by
  induction rows using List.reverseRecOn with
  | nil => rfl
  | append_singleton rows r ih =>
    have hfold : ort (rows ++ [r]) = ort_insert (ort rows) r := by
      unfold ort
      rw [List.foldl_append]
      rfl
    rw [hfold]
    unfold ort_insert
    by_cases hx : x = r.1
    · rw [if_pos hx, List.filter_append]
      have hkeep : List.filter (fun p => p.1 == x) [r] = [r] := by
        simp [hx.symm]
      rw [hkeep, List.getLast?_concat]
      rfl
    · rw [if_neg hx, List.filter_append]
      have hdrop : List.filter (fun p => p.1 == x) [r] = [] := by
        simp
        exact fun he => hx he.symm
      rw [hdrop, List.append_nil]
      exact ih

/-! ### The claims -/

/-- C2: for every pair, the scanner emits exactly `max 0 (n - windowLength)`
records (`n - windowLength` in truncated `Nat` subtraction), and whenever
`windowLength >= n` it terminates normally with the empty output rather
than failing. -/
theorem goc_record_count (cref gref ctar : List String)
    (d : String → Option String) :
    (∀ recs, goc_scan cref gref ctar d = some recs →
      recs.length = cref.length - window_length cref.length) ∧
    (cref.length ≤ window_length cref.length →
      goc_scan cref gref ctar d = some []) := by
  constructor
  · intro recs h
    unfold goc_scan at h
    exact goc_scan_loop_length h
  · intro hle
    unfold goc_scan
    rw [Nat.sub_eq_zero_of_le hle]
    rfl

/-- C3: every emitted score lies in `[0, 1]`: the count accumulated by the
scoring loop, anchor points included, never exceeds the window length. -/
theorem goc_score_in_unit_interval {cref gref ctar : List String}
    {d : String → Option String} {recs : List (Nat × ℚ)}
    (h : goc_scan cref gref ctar d = some recs) :
    ∀ r ∈ recs, 0 ≤ r.2 ∧ r.2 ≤ 1 := by
  intro r hr
  unfold goc_scan at h
  obtain ⟨k, hk, hw⟩ := goc_scan_loop_mem h hr
  obtain ⟨count, pid, hc, hp, hgl, hs⟩ := goc_window_inv hw
  constructor
  · rw [hs]
    exact div_nonneg (Nat.cast_nonneg _) (Nat.cast_nonneg _)
  · rw [hs]
    rcases Nat.eq_zero_or_pos
        (((list_tar_ort cref d).drop (0 + k)).take
          (window_length cref.length)).length with h0 | hpos
    · rw [h0]
      simp
    · have hb := (number_cds_le _ _ _ _ _ hc).1
      have hb2 : count ≤
          (((list_tar_ort cref d).drop (0 + k)).take
            (window_length cref.length)).length - 1 + 1 := by
        simpa using hb
      have hcount : count ≤
          (((list_tar_ort cref d).drop (0 + k)).take
            (window_length cref.length)).length := by
        omega
      rw [div_le_one (by exact_mod_cast hpos)]
      exact_mod_cast hcount

/-- C5: at a window position with a non-sentinel target value where the
forward adjacency test fails and either `index_ref = 0` or `index_tar = 0`,
the loop body falls through: the syntenic count and the new-region flag are
both left exactly as they were. -/
theorem goc_backward_gap_no_change {ctar : List String} {i count : Nat}
    {new : Bool} {cds_tar next : String} {rest : List String} {it : Nat}
    (hna : cds_tar ≠ "NA") (hidx : list_index ctar cds_tar = some it)
    (hfwd : ¬(it ≠ ctar.length - 1 ∧ ctar.getD (it + 1) "" = next))
    (hgap : i = 0 ∨ it = 0) :
    number_cds_in_synt_region ctar i new count (cds_tar :: next :: rest) =
      number_cds_in_synt_region ctar (i + 1) new count (next :: rest) := by
  rw [number_cds_cons, if_neg hna]
  dsimp only
  rw [hidx]
  dsimp only
  rw [if_neg hfwd, if_neg ?gap]
  case gap =>
    rintro ⟨h1, h2⟩
    rcases hgap with h | h
    · omega
    · exact h2 h

/-- C8: when several ortholog rows share the same reference gene, the dict
built by lines 85-88 keeps the destination of the last such row in the
relation's own order. -/
theorem ort_keeps_last_row {rows : List (String × String)} {x : String}
    (hdup : 1 < (rows.filter (fun r => r.1 == x)).length) :
    ort rows x =
      ((rows.filter (fun r => r.1 == x)).getLast?).map (fun r => r.2) :=
  ort_eq_getLast_filter rows x

/-- C9: when every entry of the ortholog-target sequence is the sentinel,
the scoring loop always succeeds with count 0 (the sentinel only breaks
runs, it never fails), so every emitted record has score 0. -/
theorem goc_no_ortholog_scores_zero (cref gref ctar : List String)
    (d : String → Option String)
    (hall : ∀ v ∈ list_tar_ort cref d, v = "NA") :
    (∀ s i new count,
        number_cds_in_synt_region ctar i new count
          (((list_tar_ort cref d).drop s).take (window_length cref.length)) =
          some count) ∧
    (∀ recs, goc_scan cref gref ctar d = some recs → ∀ r ∈ recs, r.2 = 0) := by
  constructor
  · intro s i new count
    exact number_cds_all_na _ _ _ _
      (fun v hv => hall v (List.mem_of_mem_drop (List.mem_of_mem_take hv)))
  · intro recs h r hr
    unfold goc_scan at h
    obtain ⟨k, hk, hw⟩ := goc_scan_loop_mem h hr
    obtain ⟨count, pid, hc, hp, hgl, hs⟩ := goc_window_inv hw
    have h0 := number_cds_all_na (T := ctar)
      (((list_tar_ort cref d).drop (0 + k)).take (window_length cref.length))
      0 true 0
      (fun v hv => hall v (List.mem_of_mem_drop (List.mem_of_mem_take hv)))
    rw [h0] at hc
    cases hc
    rw [hs]
    simp

/-- C10: a tested non-sentinel window value absent from the target CDS list
makes the scoring loop fail (`list.index` raises, killing the pair), and
under the precondition that every non-sentinel value occurs in the target
CDS list this failure branch is unreachable. -/
theorem goc_target_lookup_safety (ctar window : List String) (i count : Nat)
    (new : Bool) :
    ((∃ p, p + 1 < window.length ∧ window.getD p "" ≠ "NA" ∧
        window.getD p "" ∉ ctar) →
      number_cds_in_synt_region ctar i new count window = none) ∧
    ((∀ v ∈ window, v ≠ "NA" → v ∈ ctar) →
      ∃ c, number_cds_in_synt_region ctar i new count window = some c) := by
  constructor
  · rintro ⟨p, hp, hna, hmem⟩
    exact number_cds_lookup_fail window i new count p hp hna hmem
  · intro hall
    exact number_cds_lookup_ok window i new count hall

/-- C1 (amended): when every reference CDS has an ortholog and the
ortholog-target sequence coincides with the target CDS list (identical
content and order, no sentinel collisions, distinct ids), every emitted
window score equals 1 — the `windowLength - 1` forward-adjacent positions
each count once and the first match of the run adds one extra anchor point,
so the count reaches `windowLength`, not `windowLength - 1`. -/
theorem goc_identical_lists_score_one {cref gref ctar : List String}
    {d : String → Option String} {recs : List (Nat × ℚ)}
    (hid : list_tar_ort cref d = ctar) (hnd : ctar.Nodup) (hna : "NA" ∉ ctar)
    (h : goc_scan cref gref ctar d = some recs) :
    ∀ r ∈ recs, r.2 = 1 := by
  intro r hr
  unfold goc_scan at h
  obtain ⟨k, hk, hw⟩ := goc_scan_loop_mem h hr
  obtain ⟨count, pid, hc, hp, hgl, hs⟩ := goc_window_inv hw
  have hlen : cref.length = ctar.length := by
    rw [← hid, list_tar_ort_length]
  have hwl3 : 3 ≤ window_length cref.length :=
    window_length_ge_three (by omega)
  rw [hid] at hc hs
  rw [number_cds_colinear hnd hna 0 0 (by omega) (by omega)] at hc
  cases hc
  have hwlen : ((ctar.drop (0 + k)).take (window_length cref.length)).length =
      window_length cref.length := by
    simp only [List.length_take, List.length_drop]
    omega
  rw [hs, hwlen]
  rw [Nat.zero_add]
  exact div_self (by
    have : (0 : ℚ) < (window_length cref.length : ℚ) := by
      exact_mod_cast Nat.lt_of_lt_of_le (by norm_num) hwl3
    exact ne_of_gt this)

/-- C6 (amended): with the target CDS list reversed (same ortholog content),
synteny is still detected, through the backward test, but every window's
score is `(windowLength - 1) / windowLength`, not the forward-identical
case's 1: the window's first position falls into the silent gap (the
backward test is never tried at `index_ref = 0`), so its point and the run
anchor point attached to it are lost. -/
theorem goc_reversed_target_scores {cref gref ctar : List String}
    {d : String → Option String} {recs : List (Nat × ℚ)}
    (hid : list_tar_ort cref d = ctar.reverse) (hnd : ctar.Nodup)
    (hna : "NA" ∉ ctar) (h : goc_scan cref gref ctar d = some recs) :
    ∀ r ∈ recs, r.2 =
      ((window_length cref.length : ℚ) - 1) / (window_length cref.length : ℚ) := by
  intro r hr
  unfold goc_scan at h
  obtain ⟨k, hk, hw⟩ := goc_scan_loop_mem h hr
  obtain ⟨count, pid, hc, hp, hgl, hs⟩ := goc_window_inv hw
  have hlen : cref.length = ctar.length := by
    rw [← List.length_reverse ctar, ← hid, list_tar_ort_length]
  have hwl3 : 3 ≤ window_length cref.length :=
    window_length_ge_three (by omega)
  rw [hid] at hc hs
  rw [number_cds_rev_window hnd hna hwl3 (by omega)] at hc
  cases hc
  have hwlen :
      ((ctar.reverse.drop (0 + k)).take (window_length cref.length)).length =
        window_length cref.length := by
    simp only [List.length_take, List.length_drop, List.length_reverse]
    omega
  rw [hs, hwlen, Nat.cast_sub (by omega), Nat.cast_one]

/-- C4: assuming the reference's full gene list has distinct identifiers and
the CDS list is its protein-coding sublist, the emitted positions are
strictly increasing in emission order. -/
theorem goc_positions_strictly_increasing {cref gref ctar : List String}
    {d : String → Option String} {recs : List (Nat × ℚ)}
    (hnd : gref.Nodup) (hsub : cref.Sublist gref)
    (h : goc_scan cref gref ctar d = some recs) :
    (recs.map Prod.fst).Pairwise (· < ·) := by
  unfold goc_scan at h
  have hlen := goc_scan_loop_length h
  rw [List.pairwise_iff_getElem]
  intro a b ha hb hab
  simp only [List.length_map] at ha hb
  have hga := goc_scan_loop_getElem h a (by omega)
  have hgb := goc_scan_loop_getElem h b (by omega)
  obtain ⟨ca, pa, hca, hpa, hla, _⟩ := goc_window_inv hga
  obtain ⟨cb, pb, hcb, hpb, hlb, _⟩ := goc_window_inv hgb
  obtain ⟨hia, hea⟩ := List.get?_eq_some.mp hpa
  obtain ⟨hib, heb⟩ := List.get?_eq_some.mp hpb
  rw [List.get_eq_getElem] at hea heb
  subst hea
  subst heb
  rw [List.getD_eq_getElem _ _ ha] at hla
  rw [List.getD_eq_getElem _ _ hb] at hlb
  rw [List.getElem_map, List.getElem_map]
  exact list_index_strict_mono hnd hsub (by omega) hia hib hla hlb

/-- C7: each emitted record's position is the first index, inside the
reference's full ordered gene list, of the reference CDS at offset
`ceil(windowLength / 2) + windowOffset` of the CDS list; the centre offset
starts at `ceil(windowLength / 2)` and advances by 1 per window. -/
theorem goc_position_mapping {cref gref ctar : List String}
    {d : String → Option String} {recs : List (Nat × ℚ)}
    (h : goc_scan cref gref ctar d = some recs) :
    ∀ k, k < recs.length →
      loc_start_window0 (window_length cref.length) + k < cref.length ∧
      list_index gref
          (cref.getD (loc_start_window0 (window_length cref.length) + k) "") =
        some (recs.getD k (0, 0)).1 := by
  intro k hk
  unfold goc_scan at h
  have hlen := goc_scan_loop_length h
  have hg := goc_scan_loop_getElem h k (by omega)
  obtain ⟨count, pid, hc, hp, hgl, hs⟩ := goc_window_inv hg
  obtain ⟨hik, hek⟩ := List.get?_eq_some.mp hp
  rw [List.get_eq_getElem] at hek
  subst hek
  exact ⟨hik, by rwa [List.getD_eq_getElem _ _ hik]⟩

/-! ### Concrete runs of the ten-gene example -/

/-- Output of the forward-identical demo run, as the scanner computes it:
`windowLength = 3`, seven windows, every score 1. -/
def demo_fwd_out : List (Nat × ℚ) :=
  [(2, 1), (3, 1), (4, 1), (5, 1), (6, 1), (7, 1), (8, 1)]

/-- Output of the reversed-target demo run: seven windows, every score 2/3. -/
def demo_rev_out : List (Nat × ℚ) :=
  [(2, 2 / 3), (3, 2 / 3), (4, 2 / 3), (5, 2 / 3), (6, 2 / 3), (7, 2 / 3),
    (8, 2 / 3)]

/-- Output of the demo run with no orthologs at all: every score 0. -/
def demo_na_out : List (Nat × ℚ) :=
  [(2, 0), (3, 0), (4, 0), (5, 0), (6, 0), (7, 0), (8, 0)]

theorem demo_fwd_eval :
    goc_scan demo10 demo10 demo10 (ort demo_rows) = some demo_fwd_out := by
  simp +decide [goc_scan, goc_scan_loop, goc_window, number_cds_in_synt_region,
    list_index, list_tar_ort, ort, ort_insert, window_length,
    loc_start_window0, demo10, demo_rows, demo_fwd_out]

theorem demo_rev_eval :
    goc_scan demo10 demo10 demo10.reverse (ort demo_rows) =
      some demo_rev_out := by
  simp +decide [goc_scan, goc_scan_loop, goc_window, number_cds_in_synt_region,
    list_index, list_tar_ort, ort, ort_insert, window_length,
    loc_start_window0, demo10, demo_rows, demo_rev_out]

theorem demo_na_eval :
    goc_scan demo10 demo10 demo10 (ort []) = some demo_na_out := by
  simp +decide [goc_scan, goc_scan_loop, goc_window, number_cds_in_synt_region,
    list_index, list_tar_ort, ort, ort_insert, window_length,
    loc_start_window0, demo10, demo_na_out]

/-! ### Counterexamples -/

/-- C1 (counterexample): on the spec's own example — ten identical genes
with identity orthologs — the scanner emits seven records whose scores are
all 1, not `(windowLength - 1) / windowLength = 2/3` as the claim states. -/
theorem goc_identical_score_two_thirds_refuted :
    goc_pair demo10 demo10 demo10 demo_rows = some demo_fwd_out ∧
      ¬ ((1 : ℚ) = 2 / 3) :=
  ⟨demo_fwd_eval, by norm_num⟩

/-- C6 (counterexample): reversing the target of the ten-gene identical
example yields score 2/3 for every mirrored window, while every forward
window's score is 1, so the reversed score does not equal the forward one. -/
theorem goc_reversed_same_score_refuted :
    goc_pair demo10 demo10 demo10.reverse demo_rows = some demo_rev_out ∧
      goc_pair demo10 demo10 demo10 demo_rows = some demo_fwd_out ∧
      ¬ ((2 / 3 : ℚ) = 1) :=
  ⟨demo_rev_eval, demo_fwd_eval, by norm_num⟩

/-! ### Witnesses -/

/-- Witness for C1's amended theorem, at the ten-gene identical example. -/
theorem goc_identical_lists_score_one_witness :
    (((2 : Nat), (1 : ℚ)) : Nat × ℚ).2 = 1 :=
  goc_identical_lists_score_one (by decide) (by decide) (by decide)
    demo_fwd_eval (2, 1) (by simp [demo_fwd_out])

/-- Witness for C2 at the ten-gene example and at a one-gene reference. -/
theorem goc_record_count_witness :
    demo_fwd_out.length = demo10.length - window_length demo10.length ∧
      goc_scan ["a"] ["a"] ["a"] (ort []) = some [] :=
  ⟨(goc_record_count demo10 demo10 demo10 (ort demo_rows)).1 demo_fwd_out
      demo_fwd_eval,
    (goc_record_count ["a"] ["a"] ["a"] (ort [])).2 (by decide)⟩

/-- Witness for C3 at the ten-gene example's first record. -/
theorem goc_score_in_unit_interval_witness :
    (0 : ℚ) ≤ (((2 : Nat), (1 : ℚ)) : Nat × ℚ).2 ∧
      (((2 : Nat), (1 : ℚ)) : Nat × ℚ).2 ≤ 1 :=
  goc_score_in_unit_interval demo_fwd_eval (2, 1) (by simp [demo_fwd_out])

/-- Witness for C4 at the ten-gene example. -/
theorem goc_positions_strictly_increasing_witness :
    (demo_fwd_out.map Prod.fst).Pairwise (· < ·) :=
  goc_positions_strictly_increasing (by decide) (List.Sublist.refl demo10)
    demo_fwd_eval

/-- Witness for C5: a first window position whose forward test fails
(`index_tar` is the target's last index) is skipped with state unchanged. -/
theorem goc_backward_gap_no_change_witness :
    number_cds_in_synt_region ["x", "a"] 0 true 0 ["a", "z"] =
      number_cds_in_synt_region ["x", "a"] 1 true 0 ["z"] :=
  @goc_backward_gap_no_change ["x", "a"] 0 0 true "a" "z" [] 1
    (by decide) (by decide) (by decide) (Or.inl rfl)

/-- Witness for C6's amended theorem at the reversed ten-gene example. -/
theorem goc_reversed_target_scores_witness :
    (((2 : Nat), (2 / 3 : ℚ)) : Nat × ℚ).2 =
      ((window_length demo10.length : ℚ) - 1) /
        (window_length demo10.length : ℚ) :=
  goc_reversed_target_scores (by decide) (by decide) (by decide)
    demo_rev_eval (2, 2 / 3) (by simp [demo_rev_out])

/-- Witness for C7 at the ten-gene example's first window. -/
theorem goc_position_mapping_witness :
    loc_start_window0 (window_length demo10.length) + 0 < demo10.length ∧
      list_index demo10
          (demo10.getD (loc_start_window0 (window_length demo10.length) + 0)
            "") =
        some ((demo_fwd_out.getD 0 (0, 0)).1) :=
  goc_position_mapping demo_fwd_eval 0 (by decide)

/-- Witness for C8: two rows for the same source gene; the second wins. -/
theorem ort_keeps_last_row_witness :
    ort [("g", "a"), ("g", "b")] "g" =
      ((([("g", "a"), ("g", "b")] : List (String × String)).filter
          (fun r => r.1 == "g")).getLast?).map (fun r => r.2) :=
  ort_keeps_last_row (by decide)

/-- Witness for C9 at the ten-gene example with an empty ortholog relation. -/
theorem goc_no_ortholog_scores_zero_witness :
    number_cds_in_synt_region demo10 0 true 0
        (((list_tar_ort demo10 (ort [])).drop 0).take
          (window_length demo10.length)) =
      some 0 ∧
      (((2 : Nat), (0 : ℚ)) : Nat × ℚ).2 = 0 :=
  ⟨(goc_no_ortholog_scores_zero demo10 demo10 demo10 (ort [])
      (by decide)).1 0 0 true 0,
    (goc_no_ortholog_scores_zero demo10 demo10 demo10 (ort [])
      (by decide)).2 demo_na_out demo_na_eval (2, 0) (by simp [demo_na_out])⟩

/-- Witness for C10: a window value absent from the target list kills the
loop; with all values present the loop completes. -/
theorem goc_target_lookup_safety_witness :
    number_cds_in_synt_region ["t"] 0 true 0 ["a", "b"] = none ∧
      ∃ c, number_cds_in_synt_region ["a", "b"] 0 true 0 ["a", "b"] = some c :=
  ⟨(goc_target_lookup_safety ["t"] ["a", "b"] 0 0 true).1
      ⟨0, by decide, by decide, by decide⟩,
    (goc_target_lookup_safety ["a", "b"] ["a", "b"] 0 0 true).2 (by decide)⟩

end Goc
